import Mathlib

/-!
Shallow embedding of the ExcelScanner keyword-anchor resolution engine
(src/excel_scanner/core.py and src/excel_scanner/scanner.py).

Python strings are modelled as lists of Unicode code points (`List Nat`);
the spreadsheet grid (the pandas DataFrame loaded with header=None, and the
openpyxl worksheet) is modelled as a list of rows of cell values.  A cell
value is text, a number, or empty; pandas renders an empty cell as the
float NaN, whose Python string form is "nan".
-/

namespace ExcelScanner

/-- A Python string as its list of Unicode code points. -/
abbrev Str := List Nat

/-- The characters removed by Python `str.strip()` (ASCII whitespace:
space, tab, newline, carriage return). -/
def isSpaceCode (n : Nat) : Bool :=
  n == 32 || n == 9 || n == 10 || n == 13

/-- Python `str.lower()` on one code point (ASCII range). -/
def lowerCode (n : Nat) : Nat :=
  if 65 ≤ n ∧ n ≤ 90 then n + 32 else n

/-- Python `str.strip()`: drop leading and trailing whitespace. -/
def stripCodes (s : Str) : Str :=
  ((s.dropWhile isSpaceCode).reverse.dropWhile isSpaceCode).reverse

/-- Python `str.lower()`: lower-case every character. -/
def lowerCodes (s : Str) : Str :=
  s.map lowerCode

/-- `value.strip().lower()` as applied by `normalize_text` to a string. -/
def normStr (s : Str) : Str :=
  lowerCodes (stripCodes s)

/-- A cell value of the loaded grid: text, number, or empty (pandas NaN /
openpyxl None). -/
inductive Value where
  | vstr (s : Str)
  | vnum (n : Int)
  | vempty
deriving DecidableEq, Repr

/-- Python `str(n)` for an integer value, as code points. -/
def intStr (n : Int) : Str :=
  (toString n).data.map Char.toNat

/-- The code points of the text "nan", Python's string form of float NaN. -/
def nanCodes : Str := [110, 97, 110]

/-- Python `str(x)` on a cell value: a string is itself, a number its
decimal form, and an empty cell (NaN) the text "nan". -/
def pyStr : Value → Str
  | .vstr s => s
  | .vnum n => intStr n
  | .vempty => nanCodes

/-- `core.normalize_text`: strip and lower-case a string, pass every
non-string value through unchanged. -/
def normalize_text : Value → Value
  | .vstr s => .vstr (normStr s)
  | v => v

/-- `needle` is a leading segment of the first argument
(helper for Python substring containment). -/
def codesStartWith : Str → Str → Bool
  | _, [] => true
  | [], _ :: _ => false
  | a :: s, b :: t => a == b && codesStartWith s t

/-- Python `needle in hay` on strings: `codesContain hay needle`. -/
def codesContain : Str → Str → Bool
  | [], needle => needle.isEmpty
  | a :: t, needle => codesStartWith (a :: t) needle || codesContain t needle

/-- The loaded grid: a list of rows of cell values (the DataFrame read with
header=None; also the worksheet for the openpyxl backend). -/
abbrev Grid := List (List Value)

/-- `df.shape[0]`: number of rows. -/
def gridRows (g : Grid) : Nat := g.length

/-- `df.shape[1]`: number of columns (a DataFrame is rectangular, so this
is the length of the first row). -/
def gridCols (g : Grid) : Nat := (g.headD []).length

/-- The grid is rectangular, as a DataFrame always is. -/
abbrev Rect (g : Grid) : Prop := ∀ rw ∈ g, rw.length = gridCols g

/-- The value at 1-based position (r, c); empty outside the grid. -/
def cellAt (g : Grid) (r c : Nat) : Value :=
  (g.getD (r - 1) []).getD (c - 1) .vempty

/-- The per-cell predicate of `get_keyword_cell`:
`normalize_text(str(x)) == norm_keyword` for an exact match,
`norm_keyword in normalize_text(str(x))` for a partial match.
The second argument is the already-normalized keyword. -/
def matchPred (exact : Bool) (nk : Str) (v : Value) : Bool :=
  if exact then normStr (pyStr v) == nk else codesContain (normStr (pyStr v)) nk

/-- Coordinates (1-based, as `(i+1, j+1)`) of the matching cells of one
row, scanning columns left to right; `j0` is the 0-based index of the
first cell of `l` within the row. -/
def scanRow (pred : Value → Bool) (i : Nat) : Nat → List Value → List (Nat × Nat)
  | _, [] => []
  | j, v :: rest =>
    (if pred v then [(i + 1, j + 1)] else []) ++ scanRow pred i (j + 1) rest

/-- Row-major list of matching coordinates, as produced by
`matches.to_numpy().nonzero()` followed by the `+1` shift; `i0` is the
0-based index of the first row of the list. -/
def scanRows (pred : Value → Bool) : Nat → List (List Value) → List (Nat × Nat)
  | _, [] => []
  | i, rw :: rest => scanRow pred i 0 rw ++ scanRows pred (i + 1) rest

/-- `self.df.iloc[row_slice, col_slice]` of `get_keyword_cell`:
`row_slice = slice(None, end_row - 1)` when `end_row` is given
(so `take (er - 1)` rows), the whole extent otherwise; likewise for
columns.  Bounds are 1-based positive integers, modelled as `Nat`. -/
def searchArea (df : Grid) (endRow endCol : Option Nat) : Grid :=
  let rowsPart := match endRow with
    | none => df
    | some er => df.take (er - 1)
  rowsPart.map fun rw =>
    match endCol with
    | none => rw
    | some ec => rw.take (ec - 1)

/-- `ExcelScanner.get_keyword_cell`: all 1-based coordinates of the
search area whose normalized string form matches the normalized keyword. -/
def get_keyword_cell (df : Grid) (keyword : Str) (exact : Bool)
    (endRow endCol : Option Nat) : List (Nat × Nat) :=
  scanRows (matchPred exact (normStr keyword)) 0 (searchArea df endRow endCol)

/-- Outcome of `find_consensus_row` / `find_consensus_col`: the normal
returns (`noAnchor` for Python `None`, `ok` for a row or column number)
and the three `ValueError` shapes, each with its diagnostic payload. -/
inductive ConsensusResult where
  | noAnchor
  | ok (n : Nat)
  | disambiguationNeeded (kw : Str) (candidates : Finset Nat)
  | noConsensus (table : List (Str × Finset Nat))
  | ambiguousConsensus (shared : Finset Nat)
deriving DecidableEq

/-- `{pos[axis] for pos in positions}`: the set of row numbers
(`proj = Prod.fst`) or column numbers (`proj = Prod.snd`) touched by a
keyword's matches. -/
def axisSet (posOf : Str → List (Nat × Nat)) (proj : Nat × Nat → Nat)
    (kw : Str) : Finset Nat :=
  ((posOf kw).map proj).toFinset

/-- `set.intersection(*values)` over a nonempty list of sets. -/
def interAll : List (Finset Nat) → Finset Nat
  | [] => ∅
  | [s] => s
  | s :: rest => s ∩ interAll rest

/-- Common body of `find_consensus_row` and `find_consensus_col`
(the two Python methods are identical except for the coordinate axis
projected out of each match).  `keywords` lists the distinct elements of
the Python keyword set in iteration order. -/
def consensus_core (posOf : Str → List (Nat × Nat)) (proj : Nat × Nat → Nat) :
    List Str → ConsensusResult
  | [] => .noAnchor
  | kw :: rest =>
    if (kw :: rest).any (fun k => (posOf k).isEmpty) then .noAnchor
    else if rest = [] ∧ 1 < (axisSet posOf proj kw).card then
      .disambiguationNeeded kw (axisSet posOf proj kw)
    else
      let common := interAll ((kw :: rest).map (axisSet posOf proj))
      if common = ∅ then
        .noConsensus ((kw :: rest).map fun k => (k, axisSet posOf proj k))
      else if 1 < common.card then .ambiguousConsensus common
      else .ok (common.min.untop' 0)

/-- `ExcelScanner.find_consensus_row`. -/
def find_consensus_row (df : Grid) (keywords : List Str) (exact : Bool)
    (endRow endCol : Option Nat) : ConsensusResult :=
  consensus_core (fun kw => get_keyword_cell df kw exact endRow endCol)
    Prod.fst keywords

/-- `ExcelScanner.find_consensus_col`. -/
def find_consensus_col (df : Grid) (keywords : List Str) (exact : Bool)
    (endRow endCol : Option Nat) : ConsensusResult :=
  consensus_core (fun kw => get_keyword_cell df kw exact endRow endCol)
    Prod.snd keywords

/-- The two `ValueError` kinds raised by `get_cell_content` validation. -/
inductive CellErr where
  | invalidPosition
  | invalidOffset
deriving DecidableEq, Repr

/-- A `get_cell_content` return value: string mode always yields a string
("" for empty or out of range), native mode yields the value or the
absent marker. -/
inductive CellOut where
  | strOut (s : Str)
  | nativeOut (v : Option Value)
deriving DecidableEq, Repr

instance {α β : Type} [DecidableEq α] [DecidableEq β] : DecidableEq (Except α β)
  | Except.error a, Except.error b =>
    match decEq a b with
    | isTrue h => isTrue (h ▸ rfl)
    | isFalse h => isFalse fun he => h (Except.error.inj he)
  | Except.error _, Except.ok _ => isFalse fun he => Except.noConfusion he
  | Except.ok _, Except.error _ => isFalse fun he => Except.noConfusion he
  | Except.ok a, Except.ok b =>
    match decEq a b with
    | isTrue h => isTrue (h ▸ rfl)
    | isFalse h => isFalse fun he => h (Except.ok.inj he)

/-- `ExcelScanner.get_cell_content`.  `df` is the pandas bulk table, `ws`
the openpyxl worksheet; `getFormula || !usePandas` selects the openpyxl
backend.  The body after validation is a Python `try` block whose
`except` arm returns the same empty marker as an out-of-bounds target;
the model's lookup is total, so that arm has no separate case here. -/
def get_cell_content (df ws : Grid) (row col rowOffset colOffset : Option Int)
    (getFormula returnNative usePandas : Bool) : Except CellErr CellOut :=
  let baseRow := row.getD 1
  let baseCol := col.getD 1
  let ro := rowOffset.getD 0
  let co := colOffset.getD 0
  if baseRow ≤ 0 ∨ baseCol ≤ 0 then .error .invalidPosition
  else if ro < 0 ∨ co < 0 then .error .invalidOffset
  else
    let targetRow := baseRow + ro
    let targetCol := baseCol + co
    let g := if getFormula || !usePandas then ws else df
    if 1 ≤ targetRow ∧ targetRow ≤ (gridRows g : Int) ∧
        1 ≤ targetCol ∧ targetCol ≤ (gridCols g : Int) then
      let value := cellAt g targetRow.toNat targetCol.toNat
      if returnNative then
        .ok (.nativeOut (if value = .vempty then none else some value))
      else
        .ok (.strOut (if value = .vempty then [] else pyStr value))
    else
      .ok (if returnNative then .nativeOut none else .strOut [])

/-- `ExcelScanner.get_slice_content`: `df.iloc[start_row:end_row,
start_col:end_col].copy()` after the 1-based-to-0-based conversion, with
each omitted bound defaulting to the corresponding extreme. -/
def get_slice_content (df : Grid)
    (startSliceRow endSliceRow startSliceCol endSliceCol : Option Nat) : Grid :=
  let startRow := match startSliceRow with | none => 0 | some r => r - 1
  let endRow := match endSliceRow with | none => df.length | some r => r
  let startCol := match startSliceCol with | none => 0 | some c => c - 1
  let endCol := match endSliceCol with | none => gridCols df | some c => c
  ((df.drop startRow).take (endRow - startRow)).map fun rw =>
    (rw.drop startCol).take (endCol - startCol)


/-- Concrete 2x2 grid for tests: rows ["a", "b"] and ["b", "c"]. -/
def wgA : Grid := [[.vstr [97], .vstr [98]], [.vstr [98], .vstr [99]]]

/-- Concrete 2x2 grid: keyword "b" appears at (1, 1) and (2, 2). -/
def wgB : Grid := [[.vstr [98], .vstr [97]], [.vstr [99], .vstr [98]]]

/-- Concrete 1x2 grid: keyword "k" twice in the single row. -/
def wgC : Grid := [[.vstr [107], .vstr [107]]]

/-- Concrete 2x1 grid: keyword "k" twice in the single column. -/
def wgD : Grid := [[.vstr [107]], [.vstr [107]]]

/-- Concrete 2x1 grid: "a" in row 1, "total" in row 2. -/
def wgE : Grid := [[.vstr [97]], [.vstr [116, 111, 116, 97, 108]]]

/-- Concrete 1x2 grid: "a" in column 1, "total" in column 2. -/
def wgF : Grid := [[.vstr [97], .vstr [116, 111, 116, 97, 108]]]

/-- Concrete 1x1 grid holding "a". -/
def wgG : Grid := [[.vstr [97]]]

/-- Concrete 1x2 grid with an empty (NaN) cell at (1, 2). -/
def wgH : Grid := [[.vstr [97], .vempty]]

/-- Concrete 2x2 grid: rows ["a", "b"] and ["d", "e"]. -/
def wgI : Grid := [[.vstr [97], .vstr [98]], [.vstr [100], .vstr [101]]]

end ExcelScanner

namespace ExcelScanner

theorem lowerCode_idem (n : Nat) : lowerCode (lowerCode n) = lowerCode n := by
  by_cases h : 65 ≤ n ∧ n ≤ 90
  · have h2 : ¬(65 ≤ n + 32 ∧ n + 32 ≤ 90) := by omega
    simp [lowerCode, h, h2]
    omega
  · simp [lowerCode, h]

theorem isSpaceCode_lowerCode (n : Nat) : isSpaceCode (lowerCode n) = isSpaceCode n := by
  by_cases h : 65 ≤ n ∧ n ≤ 90
  · have h1 : isSpaceCode (n + 32) = false := by
      simp only [isSpaceCode, Bool.or_eq_false_iff, beq_eq_false_iff_ne, ne_eq]
      omega
    have h2 : isSpaceCode n = false := by
      simp only [isSpaceCode, Bool.or_eq_false_iff, beq_eq_false_iff_ne, ne_eq]
      omega
    simp [lowerCode, h, h1, h2]
  · simp [lowerCode, h]

theorem lowerCodes_idem (s : Str) : lowerCodes (lowerCodes s) = lowerCodes s := by
  induction s with
  | nil => rfl
  | cons a t ih =>
    simp only [lowerCodes, List.map_cons] at ih ⊢
    rw [lowerCode_idem, ih]

theorem dropWhile_head_false {α : Type} {p : α → Bool} {l t : List α} {a : α}
    (h : l.dropWhile p = a :: t) : p a = false := by
  induction l with
  | nil => simp [List.dropWhile] at h
  | cons x xs ih =>
    by_cases hx : p x = true
    · rw [List.dropWhile_cons, if_pos hx] at h
      exact ih h
    · rw [List.dropWhile_cons, if_neg hx] at h
      injection h with h1 _
      rw [← h1]
      simpa using hx

theorem dropWhile_cons_false {α : Type} {p : α → Bool} {a : α} {t : List α}
    (ha : p a = false) : (a :: t).dropWhile p = a :: t := by
  simp [List.dropWhile_cons, ha]

theorem dropWhile_append_single {α : Type} {p : α → Bool} {a : α}
    (ha : p a = false) (xs : List α) :
    ∃ ys, (xs ++ [a]).dropWhile p = ys ++ [a] := by
  induction xs with
  | nil => exact ⟨[], by simp [List.dropWhile_cons, ha]⟩
  | cons x t ih =>
    by_cases hx : p x = true
    · simpa [List.dropWhile_cons, hx] using ih
    · exact ⟨x :: t, by simp [List.dropWhile_cons, hx]⟩

theorem stripCodes_eq_self {s : Str}
    (hhead : ∀ a t, s = a :: t → isSpaceCode a = false)
    (hlast : ∀ a t, s.reverse = a :: t → isSpaceCode a = false) :
    stripCodes s = s := by
  cases s with
  | nil => rfl
  | cons a t =>
    have ha := hhead a t rfl
    unfold stripCodes
    rw [dropWhile_cons_false ha]
    cases hr : (a :: t).reverse with
    | nil => simp at hr
    | cons b u =>
      have hb := hlast b u hr
      rw [dropWhile_cons_false hb, ← hr, List.reverse_reverse]

theorem stripCodes_head_false (s : Str) :
    ∀ a t, stripCodes s = a :: t → isSpaceCode a = false := by
  intro a t h
  cases hu : s.dropWhile isSpaceCode with
  | nil =>
    unfold stripCodes at h
    rw [hu] at h
    simp at h
  | cons x xs =>
    have hx : isSpaceCode x = false := dropWhile_head_false hu
    unfold stripCodes at h
    rw [hu, List.reverse_cons] at h
    obtain ⟨ys, hys⟩ := dropWhile_append_single hx xs.reverse
    rw [hys, List.reverse_append] at h
    simp only [List.reverse_cons, List.reverse_nil, List.nil_append,
      List.singleton_append] at h
    injection h with h1 _
    rw [← h1]
    exact hx

theorem stripCodes_last_false (s : Str) :
    ∀ a t, (stripCodes s).reverse = a :: t → isSpaceCode a = false := by
  intro a t h
  unfold stripCodes at h
  rw [List.reverse_reverse] at h
  exact dropWhile_head_false h

theorem stripCodes_idem (s : Str) : stripCodes (stripCodes s) = stripCodes s :=
  stripCodes_eq_self (stripCodes_head_false s) (stripCodes_last_false s)

theorem dropWhile_lowerCodes (l : Str) :
    (lowerCodes l).dropWhile isSpaceCode = lowerCodes (l.dropWhile isSpaceCode) := by
  have hp : (isSpaceCode ∘ lowerCode) = isSpaceCode := funext isSpaceCode_lowerCode
  unfold lowerCodes
  rw [List.dropWhile_map, hp]

theorem lowerCodes_reverse (l : Str) : lowerCodes l.reverse = (lowerCodes l).reverse :=
  List.map_reverse lowerCode l

theorem stripCodes_lowerCodes (s : Str) :
    stripCodes (lowerCodes s) = lowerCodes (stripCodes s) := by
  unfold stripCodes
  rw [dropWhile_lowerCodes, ← lowerCodes_reverse, dropWhile_lowerCodes,
    ← lowerCodes_reverse]

theorem normStr_idem (s : Str) : normStr (normStr s) = normStr s := by
  unfold normStr
  rw [stripCodes_lowerCodes, lowerCodes_idem, stripCodes_idem]

/-- C8: the text normalizer is idempotent on every text input, and on
every non-text input (numbers, empty/absent values) it returns the input
unchanged. -/
theorem normalize_text_idem_and_passthrough :
    (∀ v : Value, normalize_text (normalize_text v) = normalize_text v)
    ∧ (∀ n : Int, normalize_text (.vnum n) = .vnum n)
    ∧ normalize_text .vempty = .vempty := by
  refine ⟨fun v => ?_, fun n => rfl, rfl⟩
  cases v with
  | vstr s => exact congrArg Value.vstr (normStr_idem s)
  | vnum n => rfl
  | vempty => rfl

end ExcelScanner

namespace ExcelScanner

theorem interAll_pair (s t : Finset Nat) (r : List (Finset Nat)) :
    interAll (s :: t :: r) = s ∩ interAll (t :: r) := rfl

theorem mem_interAll (f : Str → Finset Nat) (kws : List Str) (hk : kws ≠ [])
    (x : Nat) : x ∈ interAll (kws.map f) ↔ ∀ kw ∈ kws, x ∈ f kw := by
  induction kws with
  | nil => cases hk rfl
  | cons a t ih =>
    cases t with
    | nil => simp [interAll]
    | cons b u =>
      rw [List.map_cons, List.map_cons, interAll_pair, Finset.mem_inter,
        ← List.map_cons, ih (by simp)]
      constructor
      · rintro ⟨h1, h2⟩ kw hkw
        rcases List.mem_cons.mp hkw with h | h
        · exact h ▸ h1
        · exact h2 kw h
      · intro h
        exact ⟨h a (by simp), fun kw hkw => h kw (List.mem_cons_of_mem _ hkw)⟩

theorem consensus_core_any_empty (posOf : Str → List (Nat × Nat))
    (proj : Nat × Nat → Nat) (kws : List Str) (kw : Str) (hmem : kw ∈ kws)
    (hempty : posOf kw = []) : consensus_core posOf proj kws = .noAnchor := by
  cases kws with
  | nil => rfl
  | cons a t =>
    have hany : ((a :: t).any fun k => (posOf k).isEmpty) = true :=
      List.any_eq_true.mpr ⟨kw, hmem, by rw [hempty]; rfl⟩
    simp [consensus_core, hany]

theorem notAnyEmpty (posOf : Str → List (Nat × Nat)) (a : Str) (t : List Str)
    (hne : ∀ kw ∈ a :: t, posOf kw ≠ []) :
    ((a :: t).any fun k => (posOf k).isEmpty) = false := by
  rw [List.any_eq_false]
  intro k hk
  simp only [List.isEmpty_iff]
  exact hne k hk

theorem consensus_core_multi (posOf : Str → List (Nat × Nat))
    (proj : Nat × Nat → Nat) (a b : Str) (t : List Str)
    (hne : ∀ kw ∈ a :: b :: t, posOf kw ≠ []) :
    consensus_core posOf proj (a :: b :: t) =
      (if interAll ((a :: b :: t).map (axisSet posOf proj)) = ∅ then
        .noConsensus ((a :: b :: t).map fun k => (k, axisSet posOf proj k))
      else if 1 < (interAll ((a :: b :: t).map (axisSet posOf proj))).card then
        .ambiguousConsensus (interAll ((a :: b :: t).map (axisSet posOf proj)))
      else .ok ((interAll ((a :: b :: t).map (axisSet posOf proj))).min.untop' 0)) := by
  have hany := notAnyEmpty posOf a (b :: t) hne
  simp only [consensus_core, hany, Bool.false_eq_true, if_false]
  rw [if_neg (by simp)]


theorem consensus_core_cases (posOf : Str → List (Nat × Nat))
    (proj : Nat × Nat → Nat) (a b : Str) (t : List Str)
    (hne : ∀ kw ∈ a :: b :: t, posOf kw ≠ []) :
    (∀ r : Nat, interAll ((a :: b :: t).map (axisSet posOf proj)) = {r} →
      consensus_core posOf proj (a :: b :: t) = .ok r)
    ∧ (interAll ((a :: b :: t).map (axisSet posOf proj)) = ∅ →
      consensus_core posOf proj (a :: b :: t) =
        .noConsensus ((a :: b :: t).map fun k => (k, axisSet posOf proj k)))
    ∧ (1 < (interAll ((a :: b :: t).map (axisSet posOf proj))).card →
      consensus_core posOf proj (a :: b :: t) =
        .ambiguousConsensus (interAll ((a :: b :: t).map (axisSet posOf proj)))) := by
  rw [consensus_core_multi posOf proj a b t hne]
  refine ⟨fun r hr => ?_, fun h0 => ?_, fun hc => ?_⟩
  · rw [hr, if_neg (Finset.singleton_ne_empty r), if_neg (by simp)]
    simp only [Finset.min_singleton]
    rfl
  · rw [if_pos h0]
  · have hnz : interAll ((a :: b :: t).map (axisSet posOf proj)) ≠ ∅ := by
      intro h
      rw [h] at hc
      simp at hc
    rw [if_neg hnz, if_pos hc]

theorem consensus_core_single_disamb (posOf : Str → List (Nat × Nat))
    (proj : Nat × Nat → Nat) (kw : Str)
    (hcard : 1 < (axisSet posOf proj kw).card) :
    consensus_core posOf proj [kw] = .disambiguationNeeded kw (axisSet posOf proj kw) := by
  have hne : posOf kw ≠ [] := by
    intro h
    rw [axisSet, h] at hcard
    simp at hcard
  have hany := notAnyEmpty posOf kw [] (by simpa using hne)
  simp only [consensus_core, hany, Bool.false_eq_true, if_false]
  rw [if_pos ⟨by simp, hcard⟩]

theorem consensus_core_single_ok (posOf : Str → List (Nat × Nat))
    (proj : Nat × Nat → Nat) (kw : Str) (r : Nat)
    (hne : posOf kw ≠ [])
    (hall : ∀ p ∈ posOf kw, proj p = r) :
    consensus_core posOf proj [kw] = .ok r := by
  have hset : axisSet posOf proj kw = {r} := by
    apply Finset.ext
    intro x
    simp only [axisSet, List.mem_toFinset, List.mem_map, Finset.mem_singleton]
    constructor
    · rintro ⟨p, hp, hpx⟩
      rw [← hpx, hall p hp]
    · intro hx
      obtain ⟨p, hp⟩ := List.exists_mem_of_ne_nil _ hne
      exact ⟨p, hp, by rw [hall p hp, hx]⟩
  have hany := notAnyEmpty posOf kw [] (by simpa using hne)
  simp only [consensus_core, hany, Bool.false_eq_true, if_false]
  rw [if_neg (by rw [hset]; simp)]
  simp only [List.map_cons, List.map_nil, hset]
  rw [show interAll [({r} : Finset Nat)] = {r} from rfl]
  rw [if_neg (Finset.singleton_ne_empty r), if_neg (by simp)]
  simp only [Finset.min_singleton]
  rfl



/-- C2: for two or more keywords, each with at least one match, consensus
resolution computes the intersection of the per-keyword row-sets (resp.
column-sets); it returns the unique element when the intersection is a
singleton, fails with no-consensus listing each keyword's set when the
intersection is empty, and fails with ambiguous-consensus listing the
shared rows/columns when the intersection has more than one element. -/
theorem consensus_multi_intersection (df : Grid) (exact : Bool)
    (er ec : Option Nat) (kws : List Str) (hnd : kws.Nodup) (h2 : 2 ≤ kws.length)
    (hne : ∀ kw ∈ kws, get_keyword_cell df kw exact er ec ≠ []) :
    ((∀ x : Nat,
      x ∈ interAll (kws.map (axisSet (fun kw => get_keyword_cell df kw exact er ec) Prod.fst)) ↔
        ∀ kw ∈ kws, x ∈ axisSet (fun kw => get_keyword_cell df kw exact er ec) Prod.fst kw)
    ∧ (∀ r : Nat,
      interAll (kws.map (axisSet (fun kw => get_keyword_cell df kw exact er ec) Prod.fst)) = {r} →
        find_consensus_row df kws exact er ec = .ok r)
    ∧ (interAll (kws.map (axisSet (fun kw => get_keyword_cell df kw exact er ec) Prod.fst)) = ∅ →
        find_consensus_row df kws exact er ec =
          .noConsensus (kws.map fun k =>
            (k, axisSet (fun kw => get_keyword_cell df kw exact er ec) Prod.fst k)))
    ∧ (1 < (interAll (kws.map (axisSet (fun kw => get_keyword_cell df kw exact er ec) Prod.fst))).card →
        find_consensus_row df kws exact er ec =
          .ambiguousConsensus (interAll (kws.map (axisSet (fun kw => get_keyword_cell df kw exact er ec) Prod.fst)))))
    ∧ ((∀ x : Nat,
      x ∈ interAll (kws.map (axisSet (fun kw => get_keyword_cell df kw exact er ec) Prod.snd)) ↔
        ∀ kw ∈ kws, x ∈ axisSet (fun kw => get_keyword_cell df kw exact er ec) Prod.snd kw)
    ∧ (∀ r : Nat,
      interAll (kws.map (axisSet (fun kw => get_keyword_cell df kw exact er ec) Prod.snd)) = {r} →
        find_consensus_col df kws exact er ec = .ok r)
    ∧ (interAll (kws.map (axisSet (fun kw => get_keyword_cell df kw exact er ec) Prod.snd)) = ∅ →
        find_consensus_col df kws exact er ec =
          .noConsensus (kws.map fun k =>
            (k, axisSet (fun kw => get_keyword_cell df kw exact er ec) Prod.snd k)))
    ∧ (1 < (interAll (kws.map (axisSet (fun kw => get_keyword_cell df kw exact er ec) Prod.snd))).card →
        find_consensus_col df kws exact er ec =
          .ambiguousConsensus (interAll (kws.map (axisSet (fun kw => get_keyword_cell df kw exact er ec) Prod.snd))))) := by
  obtain ⟨a, b, t, rfl⟩ : ∃ a b t, kws = a :: b :: t := by
    cases kws with
    | nil => simp at h2
    | cons a t2 =>
      cases t2 with
      | nil => simp at h2
      | cons b u => exact ⟨a, b, u, rfl⟩
  have hrow := consensus_core_cases (fun kw => get_keyword_cell df kw exact er ec) Prod.fst a b t hne
  have hcol := consensus_core_cases (fun kw => get_keyword_cell df kw exact er ec) Prod.snd a b t hne
  exact ⟨⟨fun x => mem_interAll _ (a :: b :: t) (by simp) x, hrow.1, hrow.2.1, hrow.2.2⟩,
    ⟨fun x => mem_interAll _ (a :: b :: t) (by simp) x, hcol.1, hcol.2.1, hcol.2.2⟩⟩

theorem consensus_multi_intersection_witness :
    find_consensus_row wgA [[97], [98]] true none none = .ok 1
    ∧ find_consensus_col wgA [[97], [98]] true none none = .ok 1 := by
  have h := consensus_multi_intersection wgA true none none [[97], [98]]
    (by decide) (by decide) (by decide)
  exact ⟨h.1.2.1 1 (by decide), h.2.2.1 1 (by decide)⟩

/-- C3: for the empty keyword set, and whenever at least one keyword has
zero matches in the (bounded) grid, consensus resolution returns the
no-anchor result (Python None) without raising any error. -/
theorem consensus_zero_match_no_anchor (df : Grid) (exact : Bool)
    (er ec : Option Nat) :
    (find_consensus_row df [] exact er ec = .noAnchor
      ∧ find_consensus_col df [] exact er ec = .noAnchor)
    ∧ ∀ (kws : List Str) (kw : Str), kw ∈ kws →
        get_keyword_cell df kw exact er ec = [] →
          find_consensus_row df kws exact er ec = .noAnchor
          ∧ find_consensus_col df kws exact er ec = .noAnchor :=
  ⟨⟨rfl, rfl⟩, fun kws kw hm he =>
    ⟨consensus_core_any_empty _ Prod.fst kws kw hm he,
     consensus_core_any_empty _ Prod.snd kws kw hm he⟩⟩

theorem consensus_zero_match_no_anchor_witness :
    find_consensus_row wgA [[97], [120]] true none none = .noAnchor
    ∧ find_consensus_col wgA [[97], [120]] true none none = .noAnchor :=
  (consensus_zero_match_no_anchor wgA true none none).2 [[97], [120]] [120]
    (by decide) (by decide)

/-- C4: for a singleton keyword set whose keyword matches cells in more
than one distinct row (resp. column), consensus resolution fails with a
disambiguation-needed condition carrying the offending keyword and
exactly the full set of its candidate rows (resp. columns). -/
theorem single_keyword_disambiguation (df : Grid) (kw : Str) (exact : Bool)
    (er ec : Option Nat) :
    (∀ r : Nat, r ∈ axisSet (fun k => get_keyword_cell df k exact er ec) Prod.fst kw ↔
        ∃ c, (r, c) ∈ get_keyword_cell df kw exact er ec)
    ∧ (1 < (axisSet (fun k => get_keyword_cell df k exact er ec) Prod.fst kw).card →
        find_consensus_row df [kw] exact er ec =
          .disambiguationNeeded kw (axisSet (fun k => get_keyword_cell df k exact er ec) Prod.fst kw))
    ∧ (∀ c : Nat, c ∈ axisSet (fun k => get_keyword_cell df k exact er ec) Prod.snd kw ↔
        ∃ r, (r, c) ∈ get_keyword_cell df kw exact er ec)
    ∧ (1 < (axisSet (fun k => get_keyword_cell df k exact er ec) Prod.snd kw).card →
        find_consensus_col df [kw] exact er ec =
          .disambiguationNeeded kw (axisSet (fun k => get_keyword_cell df k exact er ec) Prod.snd kw)) := by
  refine ⟨fun r => ?_, fun h => consensus_core_single_disamb _ _ _ h,
    fun c => ?_, fun h => consensus_core_single_disamb _ _ _ h⟩
  · simp only [axisSet, List.mem_toFinset, List.mem_map]
    constructor
    · rintro ⟨⟨p1, p2⟩, hp, hpr⟩
      obtain rfl : p1 = r := hpr
      exact ⟨p2, hp⟩
    · rintro ⟨c, hc⟩
      exact ⟨(r, c), hc, rfl⟩
  · simp only [axisSet, List.mem_toFinset, List.mem_map]
    constructor
    · rintro ⟨⟨p1, p2⟩, hp, hpc⟩
      obtain rfl : p2 = c := hpc
      exact ⟨p1, hp⟩
    · rintro ⟨r, hr⟩
      exact ⟨(r, c), hr, rfl⟩

theorem single_keyword_disambiguation_witness :
    find_consensus_row wgB [[98]] true none none = .disambiguationNeeded [98] {1, 2}
    ∧ find_consensus_col wgB [[98]] true none none = .disambiguationNeeded [98] {1, 2} := by
  have h := single_keyword_disambiguation wgB [98] true none none
  constructor
  · rw [h.2.1 (by decide)]
    decide
  · rw [h.2.2.2 (by decide)]
    decide

/-- C5: for a singleton keyword set whose matches all lie in one row r
(possibly in several columns of that row), `find_consensus_row` returns
r successfully; symmetrically for `find_consensus_col` with a single
shared column. -/
theorem single_keyword_single_axis (df : Grid) (kw : Str) (exact : Bool)
    (er ec : Option Nat) (r : Nat) :
    (get_keyword_cell df kw exact er ec ≠ [] →
      (∀ p ∈ get_keyword_cell df kw exact er ec, p.1 = r) →
      find_consensus_row df [kw] exact er ec = .ok r)
    ∧ (get_keyword_cell df kw exact er ec ≠ [] →
      (∀ p ∈ get_keyword_cell df kw exact er ec, p.2 = r) →
      find_consensus_col df [kw] exact er ec = .ok r) :=
  ⟨fun hne hall => consensus_core_single_ok _ Prod.fst kw r hne hall,
   fun hne hall => consensus_core_single_ok _ Prod.snd kw r hne hall⟩

theorem single_keyword_single_axis_witness :
    find_consensus_row wgC [[107]] true none none = .ok 1
    ∧ find_consensus_col wgD [[107]] true none none = .ok 1 :=
  ⟨(single_keyword_single_axis wgC [107] true none none 1).1 (by decide) (by decide),
   (single_keyword_single_axis wgD [107] true none none 1).2 (by decide) (by decide)⟩



/-- C1: behaviour of the search bound at the failing input.  The keyword
"total" sits exactly at row `end_row` (resp. column `end_col`) and is
found by the unbounded search, yet the bounded search returns the empty
list: `get_keyword_cell` slices with `end_row - 1`, which excludes row
`end_row` itself, contradicting the spec and the method's own docstring
("Last row to search"). -/
theorem keyword_bound_excludes_end_row :
    cellAt wgE 2 1 = .vstr [116, 111, 116, 97, 108]
    ∧ get_keyword_cell wgE [116, 111, 116, 97, 108] true none none = [(2, 1)]
    ∧ get_keyword_cell wgE [116, 111, 116, 97, 108] true (some 2) none = []
    ∧ cellAt wgF 1 2 = .vstr [116, 111, 116, 97, 108]
    ∧ get_keyword_cell wgF [116, 111, 116, 97, 108] true none none = [(1, 2)]
    ∧ get_keyword_cell wgF [116, 111, 116, 97, 108] true none (some 2) = [] := by
  decide

/-- C6: `get_cell_content` rejects every base position with
base_row ≤ 0 or base_col ≤ 0 with an invalid-position error, rejects
every negative offset with an invalid-offset error, and in all these
cases fails with an explicit error for every grid, before any lookup. -/
theorem cell_content_validation (df ws : Grid) (row col ro co : Option Int)
    (gF rN uP : Bool) :
    (row.getD 1 ≤ 0 ∨ col.getD 1 ≤ 0 →
      get_cell_content df ws row col ro co gF rN uP = .error .invalidPosition)
    ∧ (0 < row.getD 1 → 0 < col.getD 1 → ro.getD 0 < 0 ∨ co.getD 0 < 0 →
      get_cell_content df ws row col ro co gF rN uP = .error .invalidOffset)
    ∧ (row.getD 1 ≤ 0 ∨ col.getD 1 ≤ 0 ∨ ro.getD 0 < 0 ∨ co.getD 0 < 0 →
      ∃ e, get_cell_content df ws row col ro co gF rN uP = .error e) := by
  refine ⟨fun h => ?_, fun h1 h2 h3 => ?_, fun h => ?_⟩
  · simp only [get_cell_content]
    rw [if_pos h]
  · simp only [get_cell_content]
    rw [if_neg (by omega), if_pos h3]
  · by_cases hp : row.getD 1 ≤ 0 ∨ col.getD 1 ≤ 0
    · exact ⟨_, by simp only [get_cell_content]; rw [if_pos hp]⟩
    · rcases h with h | h | h | h
      · exact absurd (Or.inl h) hp
      · exact absurd (Or.inr h) hp
      · exact ⟨_, by simp only [get_cell_content]; rw [if_neg hp, if_pos (Or.inl h)]⟩
      · exact ⟨_, by simp only [get_cell_content]; rw [if_neg hp, if_pos (Or.inr h)]⟩

theorem cell_content_validation_witness :
    get_cell_content [] [] (some 0) (some 1) none none false false true
      = .error .invalidPosition
    ∧ get_cell_content [] [] (some 5) (some 5) (some (-1)) (some (-1)) false false true
      = .error .invalidOffset :=
  ⟨(cell_content_validation [] [] (some 0) (some 1) none none false false true).1
      (by decide),
   (cell_content_validation [] [] (some 5) (some 5) (some (-1)) (some (-1)) false false
      true).2.1 (by decide) (by decide) (by decide)⟩

/-- C7: for a valid base position and non-negative offsets,
`get_cell_content` always returns a non-error result, and when the
target lies outside the selected backend's extent it returns the
conventional empty result: the absent marker in native-type mode, the
empty string in string mode. -/
theorem cell_content_out_of_bounds (df ws : Grid) (row col ro co : Option Int)
    (gF rN uP : Bool)
    (h1 : 0 < row.getD 1) (h2 : 0 < col.getD 1)
    (h3 : 0 ≤ ro.getD 0) (h4 : 0 ≤ co.getD 0) :
    (∃ out, get_cell_content df ws row col ro co gF rN uP = .ok out)
    ∧ (¬(1 ≤ row.getD 1 + ro.getD 0
        ∧ row.getD 1 + ro.getD 0 ≤ (gridRows (if gF || !uP then ws else df) : Int)
        ∧ 1 ≤ col.getD 1 + co.getD 0
        ∧ col.getD 1 + co.getD 0 ≤ (gridCols (if gF || !uP then ws else df) : Int)) →
      get_cell_content df ws row col ro co gF rN uP =
        .ok (if rN then .nativeOut none else .strOut [])) := by
  have hv1 : ¬(row.getD 1 ≤ 0 ∨ col.getD 1 ≤ 0) := by omega
  have hv2 : ¬(ro.getD 0 < 0 ∨ co.getD 0 < 0) := by omega
  constructor
  · simp only [get_cell_content]
    rw [if_neg hv1, if_neg hv2]
    by_cases hb : (1 ≤ row.getD 1 + ro.getD 0
        ∧ row.getD 1 + ro.getD 0 ≤ (gridRows (if gF || !uP then ws else df) : Int)
        ∧ 1 ≤ col.getD 1 + co.getD 0
        ∧ col.getD 1 + co.getD 0 ≤ (gridCols (if gF || !uP then ws else df) : Int))
    · rw [if_pos hb]
      cases rN
      · exact ⟨_, rfl⟩
      · exact ⟨_, rfl⟩
    · rw [if_neg hb]
      exact ⟨_, rfl⟩
  · intro hb
    simp only [get_cell_content]
    rw [if_neg hv1, if_neg hv2, if_neg hb]

theorem cell_content_out_of_bounds_witness :
    get_cell_content wgG [] (some 2) (some 1) none none false false true
      = .ok (.strOut []) := by
  have h := cell_content_out_of_bounds wgG [] (some 2) (some 1) none none false false true
    (by decide) (by decide) (by decide) (by decide)
  exact h.2 (by decide)



theorem mem_scanRow (pred : Value → Bool) (i : Nat) :
    ∀ (j0 t : Nat) (l : List Value) (v : Value), l[t]? = some v → pred v = true →
      (i + 1, j0 + t + 1) ∈ scanRow pred i j0 l := by
  intro j0 t l
  induction l generalizing j0 t with
  | nil => intro v h _; simp at h
  | cons x xs ih =>
    intro v hv hp
    cases t with
    | zero =>
      have hx : x = v := by simpa using hv
      subst hx
      simp [scanRow, hp]
    | succ u =>
      have hm := ih (j0 + 1) u v (by simpa using hv) hp
      have e : j0 + (u + 1) + 1 = j0 + 1 + u + 1 := by omega
      rw [e]
      simp only [scanRow]
      exact List.mem_append_right _ hm

theorem mem_scanRows (pred : Value → Bool) :
    ∀ (i0 t : Nat) (rows : List (List Value)) (row : List Value) (j : Nat) (v : Value),
      rows[t]? = some row → row[j]? = some v → pred v = true →
      (i0 + t + 1, j + 1) ∈ scanRows pred i0 rows := by
  intro i0 t rows
  induction rows generalizing i0 t with
  | nil => intro row j v h _ _; simp at h
  | cons r rs ih =>
    intro row j v hrow hv hp
    cases t with
    | zero =>
      have hr : r = row := by simpa using hrow
      subst hr
      simp only [scanRows]
      refine List.mem_append_left _ ?_
      have := mem_scanRow pred i0 0 j r v hv hp
      simpa using this
    | succ u =>
      have hm := ih (i0 + 1) u row j v (by simpa using hrow) hv hp
      have e : i0 + (u + 1) + 1 = i0 + 1 + u + 1 := by omega
      rw [e]
      simp only [scanRows]
      exact List.mem_append_right _ hm

/-- C10: in `get_keyword_cell` every cell of the scanned region is
converted to its string form before normalization, an empty cell's
string form being "nan"; hence an exact search for "nan" returns every
empty cell's coordinates, and any partial-match keyword whose normal
form is a substring of "nan" also matches every empty cell. -/
theorem empty_cell_scans_as_nan (g : Grid) (er ec : Option Nat) (i j : Nat)
    (row : List Value)
    (hrow : (searchArea g er ec)[i]? = some row)
    (hcell : row[j]? = some .vempty) :
    pyStr .vempty = nanCodes
    ∧ (i + 1, j + 1) ∈ get_keyword_cell g nanCodes true er ec
    ∧ ∀ kw : Str, codesContain nanCodes (normStr kw) = true →
        (i + 1, j + 1) ∈ get_keyword_cell g kw false er ec := by
  refine ⟨rfl, ?_, ?_⟩
  · have hp : matchPred true (normStr nanCodes) Value.vempty = true := by decide
    have := mem_scanRows (matchPred true (normStr nanCodes)) 0 i
      (searchArea g er ec) row j Value.vempty hrow hcell hp
    simpa [get_keyword_cell] using this
  · intro kw hkw
    have hp : matchPred false (normStr kw) Value.vempty = true := by
      have hn : normStr (pyStr Value.vempty) = nanCodes := by decide
      simp only [matchPred, if_false, Bool.false_eq_true, hn]
      exact hkw
    have := mem_scanRows (matchPred false (normStr kw)) 0 i
      (searchArea g er ec) row j Value.vempty hrow hcell hp
    simpa [get_keyword_cell] using this

theorem empty_cell_scans_as_nan_witness :
    pyStr .vempty = nanCodes
    ∧ (1, 2) ∈ get_keyword_cell wgH nanCodes true none none
    ∧ (1, 2) ∈ get_keyword_cell wgH [110, 97] false none none := by
  have h := empty_cell_scans_as_nan wgH none none 0 1 [.vstr [97], .vempty]
    (by decide) (by decide)
  exact ⟨h.1, h.2.1, h.2.2 [110, 97] (by decide)⟩


theorem get_cell_content_pandas_inbounds (df ws : Grid) (r c : Nat)
    (hr : 0 < r) (hc : 0 < c) (hbr : r ≤ gridRows df) (hbc : c ≤ gridCols df) :
    get_cell_content df ws (some (r : Int)) (some (c : Int)) none none false true true
      = .ok (.nativeOut (if cellAt df r c = .vempty then none
          else some (cellAt df r c))) := by
  have hbounds : (1 : Int) ≤ (r : Int) + 0 ∧ (r : Int) + 0 ≤ (gridRows df : Int)
      ∧ (1 : Int) ≤ (c : Int) + 0 ∧ (c : Int) + 0 ≤ (gridCols df : Int) := by
    omega
  simp only [get_cell_content, Option.getD_some, Option.getD_none, Bool.not_true,
    Bool.or_false]
  rw [if_neg (by omega), if_neg (by omega), if_neg Bool.false_ne_true,
    if_pos hbounds]
  rw [if_pos trivial]
  rw [show ((r : Int) + 0).toNat = r from by omega,
    show ((c : Int) + 0).toNat = c from by omega]


/-- C9: extracting a rectangle with `get_slice_content` and indexing the
sub-grid at local offset (i, j) yields the same value as addressing the
original grid at (r1 + i, c1 + j); `get_cell_content` at that base
returns exactly that value (with the absent marker for an empty cell). -/
theorem slice_cell_roundtrip (df : Grid) (r1 r2 c1 c2 i j : Nat)
    (hrect : Rect df)
    (hr1 : 1 ≤ r1) (hc1 : 1 ≤ c1)
    (hr2 : r2 ≤ gridRows df) (hc2 : c2 ≤ gridCols df)
    (hi : r1 + i ≤ r2) (hj : c1 + j ≤ c2) :
    cellAt (get_slice_content df (some r1) (some r2) (some c1) (some c2)) (i + 1) (j + 1)
      = cellAt df (r1 + i) (c1 + j)
    ∧ ∀ ws : Grid,
      get_cell_content df ws (some ((r1 + i : Nat) : Int)) (some ((c1 + j : Nat) : Int))
        none none false true true
      = .ok (.nativeOut (if cellAt df (r1 + i) (c1 + j) = .vempty then none
          else some (cellAt df (r1 + i) (c1 + j)))) := by
  have hlen : r1 - 1 + i < df.length := by
    have hg : gridRows df = df.length := rfl
    omega
  constructor
  · unfold cellAt get_slice_content
    simp only [List.getD_eq_getElem?_getD]
    rw [List.getElem?_map, List.getElem?_take,
      if_pos (show i + 1 - 1 < r2 - (r1 - 1) from by omega), List.getElem?_drop,
      show r1 - 1 + (i + 1 - 1) = r1 - 1 + i from by omega,
      List.getElem?_eq_getElem hlen]
    simp only [Option.map_some', Option.getD_some]
    rw [List.getElem?_take, if_pos (show j + 1 - 1 < c2 - (c1 - 1) from by omega),
      List.getElem?_drop,
      show c1 - 1 + (j + 1 - 1) = c1 - 1 + j from by omega,
      show r1 + i - 1 = r1 - 1 + i from by omega,
      show c1 + j - 1 = c1 - 1 + j from by omega,
      List.getElem?_eq_getElem hlen]
    simp only [Option.getD_some]
  · intro ws
    exact get_cell_content_pandas_inbounds df ws (r1 + i) (c1 + j)
      (by omega) (by omega) (by omega) (by omega)

theorem slice_cell_roundtrip_witness :
    cellAt (get_slice_content wgI (some 1) (some 2) (some 1) (some 2)) (1 + 1) (1 + 1)
      = cellAt wgI (1 + 1) (1 + 1)
    ∧ get_cell_content wgI [] (some ((1 + 1 : Nat) : Int)) (some ((1 + 1 : Nat) : Int))
        none none false true true
      = .ok (.nativeOut (if cellAt wgI (1 + 1) (1 + 1) = .vempty then none
          else some (cellAt wgI (1 + 1) (1 + 1)))) := by
  have h := slice_cell_roundtrip wgI 1 2 1 2 1 1 (by decide) (by decide) (by decide)
    (by decide) (by decide) (by decide) (by decide)
  exact ⟨h.1, h.2 []⟩


end ExcelScanner
